import Mathlib

/-!
Shallow embedding of the HFMD dashboard data pipeline found in
home.py, hfmd_visualisation.py and regional_comparison.py:
loading, normalization, monthly aggregation and summary statistics.
Numeric cells are modelled as exact rationals; pandas NaN / missing
values are modelled with Option or the Cell.na constructor.
-/

deriving instance DecidableEq for Except

namespace HFMD

/-- Calendar date as parsed by pandas to_datetime with format DD/MM/YYYY. -/
structure D where
  y : Nat
  m : Nat
  d : Nat
  deriving DecidableEq, Repr

def isLeap (y : Nat) : Bool := y % 4 == 0 && (y % 100 != 0 || y % 400 == 0)

def daysInMonth (y m : Nat) : Nat :=
  if m == 2 then (if isLeap y then 29 else 28)
  else if m == 4 || m == 6 || m == 9 || m == 11 then 30 else 31

/-- Linear key ordering months: (year, month) collapsed to a single natural. -/
def monthKey (x : D) : Nat := 12 * x.y + (x.m - 1)

/-- Linear key ordering dates chronologically (valid days are below 32). -/
def dateKey (x : D) : Nat := 32 * monthKey x + x.d

/-- Whitespace characters recognized by Python str.strip. -/
def isSpaceChar (c : Char) : Bool := c == ' ' || c == '\t' || c == '\n' || c == '\r'

def dropLeading : List Char → List Char
  | [] => []
  | c :: cs => if isSpaceChar c then dropLeading cs else c :: cs

def trimChars (l : List Char) : List Char := (dropLeading (dropLeading l.reverse).reverse)

/-- Splitting a character list at every slash, as the %d/%m/%Y parser does. -/
def splitSlash : List Char → List (List Char)
  | [] => [[]]
  | c :: cs =>
    if c == '/' then [] :: splitSlash cs
    else
      match splitSlash cs with
      | [] => [[c]]
      | p :: ps => (c :: p) :: ps

def digitsToNatAux : List Char → Nat → Option Nat
  | [], acc => some acc
  | c :: cs, acc => if c.isDigit then digitsToNatAux cs (acc * 10 + (c.toNat - 48)) else none

/-- Digit-string parsing (none on empty or non-digit input). -/
def digitsToNat : List Char → Option Nat
  | [] => none
  | c :: cs => digitsToNatAux (c :: cs) 0

/-- pandas to_datetime(s, format="%d/%m/%Y", errors="coerce") on one string:
invalid calendar dates and malformed text coerce to NaT (none). Implemented on
the character list because core string functions are opaque to the kernel; the
field-width limits of strptime are immaterial here and not modelled. -/
def parseDMY (s : String) : Option D :=
  match (splitSlash s.data).map digitsToNat with
  | [some dd, some mm, some yy] =>
    if 1 ≤ mm ∧ mm ≤ 12 ∧ 1 ≤ dd ∧ dd ≤ daysInMonth yy mm then some ⟨yy, mm, dd⟩ else none
  | _ => none

/-- One raw table cell: a numeric value, a missing value (NaN), or non-numeric text. -/
inductive Cell
  | num (q : ℚ)
  | na
  | txt (s : String)
  deriving DecidableEq, Repr

def toQ : Cell → Option ℚ
  | .num q => some q
  | _ => none

/-- Cell value under skipna summation: NaN counts as 0. -/
def toQ0 (c : Cell) : ℚ := (toQ c).getD 0

def parseDateCell : Cell → Option D
  | .txt s => parseDMY s
  | _ => none

/-- Raw table produced by pd.read_csv: a column header list and aligned rows. -/
structure RawTable where
  cols : List String
  rows : List (List Cell)
  deriving DecidableEq, Repr

/-- Column renaming used by all three pages: strip, lowercase, spaces to
underscores (c.strip().lower().replace(" ", "_")), on the character list. -/
def colNorm (c : String) : String :=
  ⟨((trimChars c.data).map Char.toLower).map fun ch => if ch == ' ' then '_' else ch⟩

def normalizeCols (t : RawTable) : RawTable := ⟨t.cols.map colNorm, t.rows⟩

def regions : List String := ["southern", "northern", "central", "east_coast", "borneo"]

/-- pandas dtype check: a column is numeric unless some cell holds non-numeric text.
Dtypes are fixed when the CSV is read, before any row is dropped. -/
def colIsNumeric (t : RawTable) (j : Nat) : Bool :=
  t.rows.all fun r =>
    match r.getD j .na with
    | .txt _ => false
    | _ => true

/-- read_csv aligns every row with the header, padding short rows with NaN. -/
def padCells (n : Nat) (r : List Cell) : List Cell := (List.range n).map fun j => r.getD j .na

def regionIdxs (t : RawTable) : List Nat := regions.map fun c => t.cols.indexOf c

/-- Row total from df[regions].sum(axis=1, numeric_only=True): region columns of
text dtype are dropped from the sum for every row; NaN cells count as 0 in the
remaining columns. -/
def codeRowTotal (t : RawTable) (r : List Cell) : ℚ :=
  (((regionIdxs t).filter (colIsNumeric t)).map fun j => toQ0 (r.getD j .na)).sum

/-- Reading of claim C5: the row total sums the region values of the row itself,
with missing or non-numeric cells counted as 0 for that row only. -/
def specRowTotal (t : RawTable) (r : List Cell) : ℚ :=
  ((regionIdxs t).map fun j => toQ0 (r.getD j .na)).sum

/-- Terminal failures of the pipelines; each carries or denotes the message the
page displays before st.stop (or the uncaught exception text). -/
inductive PipeError
  | caught (e : String)
  | missingDate
  | missingRegions (cs : List String)
  | keyErr (cs : List String)
  | emptyMonthly
  | datasetNotLoaded
  | dataNotLoaded
  deriving DecidableEq, Repr

def PipeError.message : PipeError → String
  | .caught e => "Error: " ++ e
  | .missingDate => "CSV must contain a Date column."
  | .missingRegions cs => "Missing region columns: " ++ String.intercalate ", " cs
  | .keyErr cs => "KeyError: " ++ String.intercalate ", " cs ++ " not in index"
  | .emptyMonthly => "Monthly data is empty. Check if the CSV has numeric case values for regions."
  | .datasetNotLoaded => "Dataset could not be loaded. Please check the URL."
  | .dataNotLoaded => "Data could not be loaded. Please check the URL and try again."

/-- Daily observations after normalization: parsed date plus the row cells; the
numeric mask records which columns have numeric dtype (date column excluded). -/
structure DayTable where
  cols : List String
  numeric : List Bool
  rows : List (D × List Cell)
  deriving DecidableEq, Repr

/-- Date order used by sort_values("date"). -/
def dle (a b : D × List Cell) : Prop := dateKey a.1 ≤ dateKey b.1

instance : DecidableRel dle := fun a b => Nat.decLe (dateKey a.1) (dateKey b.1)

instance : IsTotal (D × List Cell) dle := ⟨fun a b => Nat.le_total (dateKey a.1) (dateKey b.1)⟩

instance : IsTrans (D × List Cell) dle := ⟨fun _ _ _ h1 h2 => Nat.le_trans h1 h2⟩

/-- Rows with a parseable date, in source order (dropna(subset=["date"])). -/
def parsedRows (t : RawTable) : List (D × List Cell) :=
  t.rows.filterMap fun r =>
    (parseDateCell (r.getD (t.cols.indexOf "date") .na)).map fun d => (d, padCells t.cols.length r)

/-- Numeric dtype mask of the normalized table; the parsed date column is datetime
dtype, hence never numeric. -/
def numericMask (t : RawTable) : List Bool :=
  (List.range t.cols.length).map fun j => decide (j ≠ t.cols.indexOf "date") && colIsNumeric t j

/-- total_cases appended to each row (home.py line 44, hfmd line 33). -/
def withTotal (t : RawTable) (l : List (D × List Cell)) : List (D × List Cell) :=
  l.map fun x => (x.1, x.2 ++ [.num (codeRowTotal t x.2)])

/-- Normalizer of home.py lines 31 to 44: date column required, dates parsed with
invalid rows dropped, rows sorted ascending by date, all five region columns
required (error listing every missing one), total_cases appended. The source
sort is sort_values with the default quicksort; this model fixes the order by
date only — tie order among equal dates is implementation defined in the source
and no theorem below relies on it. -/
def homeNormalize (t : RawTable) : Except PipeError DayTable :=
  if "date" ∈ t.cols then
    let kept := List.insertionSort dle (parsedRows t)
    let missing := regions.filter fun c => decide (c ∉ t.cols)
    if missing = [] then
      .ok ⟨t.cols ++ ["total_cases"], numericMask t ++ [true], withTotal t kept⟩
    else .error (.missingRegions missing)
  else .error .missingDate

/-- Normalizer of hfmd_visualisation.py lines 27 to 33: no date sort, and a missing
date or region column surfaces as an uncaught KeyError naming the missing labels. -/
def hfmdNormalize (t : RawTable) : Except PipeError DayTable :=
  if "date" ∈ t.cols then
    let missing := regions.filter fun c => decide (c ∉ t.cols)
    if missing = [] then
      .ok ⟨t.cols ++ ["total_cases"], numericMask t ++ [true], withTotal t (parsedRows t)⟩
    else .error (.keyErr missing)
  else .error (.keyErr ["date"])

/-- Normalizer of regional_comparison.py lines 28 to 34: like the visualisation
page plus the date sort of line 31. -/
def regionalNormalize (t : RawTable) : Except PipeError DayTable :=
  if "date" ∈ t.cols then
    let missing := regions.filter fun c => decide (c ∉ t.cols)
    if missing = [] then
      .ok ⟨t.cols ++ ["total_cases"], numericMask t ++ [true],
           withTotal t (List.insertionSort dle (parsedRows t))⟩
    else .error (.keyErr missing)
  else .error (.keyErr ["date"])

/-- Monthly aggregate: one row per calendar month bin, cells are per-column means
(none encodes NaN). -/
structure MonTable where
  cols : List String
  rows : List (D × List (Option ℚ))
  deriving DecidableEq, Repr

def monthKeys (t : DayTable) : List Nat := t.rows.map fun r => monthKey r.1

def kLo (t : DayTable) : Nat :=
  match monthKeys t with
  | [] => 0
  | k :: ks => ks.foldl min k

def kHi (t : DayTable) : Nat :=
  match monthKeys t with
  | [] => 0
  | k :: ks => ks.foldl max k

/-- Month-end date labelling a resample("M") bin. -/
def monthEnd (k : Nat) : D := ⟨k / 12, k % 12 + 1, daysInMonth (k / 12) (k % 12 + 1)⟩

def monthRangeList (k0 k1 : Nat) : List Nat := (List.range (k1 + 1 - k0)).map fun i => k0 + i

def meanOpt (l : List ℚ) : Option ℚ := if l = [] then none else some (l.sum / l.length)

/-- Values of column j contributed to month bin k (NaN skipped). -/
def collectCol (t : DayTable) (k j : Nat) : List ℚ :=
  t.rows.filterMap fun r => if monthKey r.1 = k then toQ (r.2.getD j .na) else none

def numIdxs (t : DayTable) : List Nat :=
  (List.range t.cols.length).filter fun j => t.numeric.getD j false

/-- Aggregator: df.set_index("date").resample("M").mean(numeric_only=True).
resample produces one bin per calendar month from the first to the last
observation month inclusive — also for months with no observation, whose
means are all NaN; mean skips NaN per column inside each bin. -/
def aggregate (t : DayTable) : MonTable :=
  ⟨(numIdxs t).map fun j => t.cols.getD j "",
   if t.rows.isEmpty then []
   else (monthRangeList (kLo t) (kHi t)).map fun k =>
     (monthEnd k, (numIdxs t).map fun j => meanOpt (collectCol t k j))⟩

def oToCell : Option ℚ → Cell
  | some q => .num q
  | none => .na

/-- Reading a monthly aggregate back as a daily style table, for re-aggregation. -/
def monToDay (A : MonTable) : DayTable :=
  ⟨A.cols, A.cols.map fun _ => true, A.rows.map fun r => (r.1, r.2.map oToCell)⟩

def colVals (A : MonTable) (c : String) : List (Option ℚ) :=
  A.rows.map fun r => r.2.getD (A.cols.indexOf c) none

/-- Mean of a series with NaN entries skipped (pandas mean). -/
def meanOptF (l : List (Option ℚ)) : Option ℚ := meanOpt (l.filterMap id)

def dedupAdj : List Nat → List Nat
  | [] => []
  | [a] => [a]
  | a :: b :: rest => if a = b then dedupAdj (b :: rest) else a :: dedupAdj (b :: rest)

/-- Distinct group keys in ascending order, as groupby produces them. -/
def keysAsc (l : List Nat) : List Nat := dedupAdj (List.insertionSort (· ≤ ·) l)

def rowTotal (A : MonTable) (r : D × List (Option ℚ)) : Option ℚ :=
  r.2.getD (A.cols.indexOf "total_cases") none

/-- df_m.groupby("Year")["total_cases"].mean(): keys ascending, NaN skipped. -/
def yearMeans (A : MonTable) : List (Nat × Option ℚ) :=
  (keysAsc (A.rows.map fun r => r.1.y)).map fun g =>
    (g, meanOptF (A.rows.filterMap fun r => if r.1.y = g then some (rowTotal A r) else none))

/-- df_m.groupby("Month")["total_cases"].mean(): keys ascending, NaN skipped. -/
def monthMeans (A : MonTable) : List (Nat × Option ℚ) :=
  (keysAsc (A.rows.map fun r => r.1.m)).map fun g =>
    (g, meanOptF (A.rows.filterMap fun r => if r.1.m = g then some (rowTotal A r) else none))

def pickMax (a : Nat) (q : ℚ) : List (Nat × Option ℚ) → Nat × ℚ
  | [] => (a, q)
  | (b, some p) :: rest => if q < p then pickMax b p rest else pickMax a q rest
  | (_, none) :: rest => pickMax a q rest

/-- Series.idxmax: index of the first occurrence of the maximum, NaN skipped;
undefined when every entry is NaN. -/
def idxmaxOpt : List (Nat × Option ℚ) → Option (Nat × ℚ)
  | [] => none
  | (a, some q) :: rest => some (pickMax a q rest)
  | (_, none) :: rest => idxmaxOpt rest

/-- home.py line 77. -/
def peakYear (A : MonTable) : Option Nat := (idxmaxOpt (yearMeans A)).map Prod.fst

/-- Order realized by sort_values(ascending=False) on a series of at most 12
entries: descending by value, NaN last, ties kept in ascending index order
(below 16 entries numpy argsort is an insertion sort, hence stable, and pandas
reverses the input and the output around it for a descending sort). -/
def mLe (a b : Nat × Option ℚ) : Prop :=
  match a.2, b.2 with
  | some x, some y => y < x ∨ (x = y ∧ a.1 ≤ b.1)
  | some _, none => True
  | none, some _ => False
  | none, none => a.1 ≤ b.1

instance : DecidableRel mLe := fun a b =>
  match a, b with
  | (a1, some x), (b1, some y) => inferInstanceAs (Decidable (y < x ∨ (x = y ∧ a1 ≤ b1)))
  | (_, some _), (_, none) => inferInstanceAs (Decidable True)
  | (_, none), (_, some _) => inferInstanceAs (Decidable False)
  | (a1, none), (b1, none) => inferInstanceAs (Decidable (a1 ≤ b1))

instance : IsTotal (Nat × Option ℚ) mLe :=
  ⟨by
    intro a b
    rcases a with ⟨a1, _ | x⟩ <;> rcases b with ⟨b1, _ | y⟩
    · exact Nat.le_total a1 b1
    · exact Or.inr trivial
    · exact Or.inl trivial
    · rcases lt_trichotomy x y with h | h | h
      · exact Or.inr (Or.inl h)
      · rcases Nat.le_total a1 b1 with hn | hn
        · exact Or.inl (Or.inr ⟨h, hn⟩)
        · exact Or.inr (Or.inr ⟨h.symm, hn⟩)
      · exact Or.inl (Or.inl h)⟩

instance : IsTrans (Nat × Option ℚ) mLe :=
  ⟨by
    intro a b c hab hbc
    rcases a with ⟨a1, _ | x⟩ <;> rcases b with ⟨b1, _ | y⟩ <;> rcases c with ⟨c1, _ | z⟩
    · exact Nat.le_trans hab hbc
    · exact False.elim hbc
    · exact False.elim hab
    · exact False.elim hab
    · exact trivial
    · exact False.elim hbc
    · exact trivial
    · rcases hab with h1 | ⟨hxy, hn1⟩ <;> rcases hbc with h2 | ⟨hyz, hn2⟩
      · exact Or.inl (lt_trans h2 h1)
      · exact Or.inl (hyz ▸ h1)
      · exact Or.inl (by rw [hxy]; exact h2)
      · exact Or.inr ⟨hxy.trans hyz, Nat.le_trans hn1 hn2⟩⟩

instance : IsAntisymm (Nat × Option ℚ) mLe :=
  ⟨by
    intro a b hab hba
    rcases a with ⟨a1, _ | x⟩ <;> rcases b with ⟨b1, _ | y⟩
    · have h12 : a1 = b1 := Nat.le_antisymm hab hba
      rw [h12]
    · exact False.elim hab
    · exact False.elim hba
    · rcases hab with h1 | ⟨hxy, hn1⟩ <;> rcases hba with h2 | ⟨hyx, hn2⟩
      · exact absurd (lt_trans h1 h2) (lt_irrefl y)
      · exact absurd (hyx ▸ h1) (lt_irrefl x)
      · exact absurd (hxy ▸ h2) (lt_irrefl y)
      · have h12 : a1 = b1 := Nat.le_antisymm hn1 hn2
        rw [hxy, h12]⟩

/-- home.py lines 78 to 79: the three months of highest mean total_cases. -/
def topMonths (A : MonTable) : List Nat :=
  ((List.insertionSort mLe (monthMeans A)).take 3).map Prod.fst

/-- home.py line 81: sorted(top_months), the display order of the peak months. -/
def seasonalPeakList (A : MonTable) : List Nat :=
  List.insertionSort (· ≤ ·) (topMonths A)

def pairsOfCols (xs ys : List (Option ℚ)) : List (ℚ × ℚ) :=
  (xs.zip ys).filterMap fun p =>
    match p.1, p.2 with
    | some a, some b => some (a, b)
    | _, _ => none

/-- Round the square root of a nonnegative rational to the nearest integer, halves
to even, as np.round does at the scaled level. -/
def roundSqrtHE (q : ℚ) : Nat :=
  let m := Nat.sqrt (4 * q).floor.toNat
  if 4 * q = (m : ℚ) ^ 2 ∧ m % 2 = 1 then
    (if (m + 1) / 2 % 2 = 0 then (m + 1) / 2 else m / 2)
  else (m + 1) / 2

/-- np.round(Series.corr(other), 2): Pearson correlation over the complete pairs,
rounded to 2 decimals; NaN (none) when no pair exists or either variance is 0. -/
def pearsonRound2 (xs ys : List (Option ℚ)) : Option ℚ :=
  let ps := pairsOfCols xs ys
  if ps.length = 0 then none else
    let n : ℚ := ps.length
    let mx := (ps.map Prod.fst).sum / n
    let my := (ps.map Prod.snd).sum / n
    let sxy := (ps.map fun p => (p.1 - mx) * (p.2 - my)).sum
    let sxx := (ps.map fun p => (p.1 - mx) ^ 2).sum
    let syy := (ps.map fun p => (p.2 - my) ^ 2).sum
    if sxx * syy = 0 then none
    else some ((if sxy < 0 then -1 else 1) * (roundSqrtHE (10000 * sxy ^ 2 / (sxx * syy)) : ℚ) / 100)

/-- hfmd_visualisation.py lines 46 to 47: NaN when either column is absent. -/
def safe_corr (A : MonTable) (x y : String) : Option ℚ :=
  if x ∈ A.cols ∧ y ∈ A.cols then pearsonRound2 (colVals A x) (colVals A y) else none

/-- Key of the max call on lines 53 to 56: absolute coefficient, NaN scored -1. -/
def score : Option ℚ → ℚ
  | some q => |q|
  | none => -1

/-- Python max with a key function: the first element of maximal key wins. -/
def maxByFirst (f : String × Option ℚ → ℚ) (a : String × Option ℚ) :
    List (String × Option ℚ) → String × Option ℚ
  | [] => a
  | x :: rest => if f a < f x then maxByFirst f x rest else maxByFirst f a rest

def strongestTriple (ct cr ch : Option ℚ) : String × Option ℚ :=
  maxByFirst (fun p => score p.2) ("Temperature", ct) [("Rainfall", cr), ("Humidity", ch)]

/-- hfmd_visualisation.py lines 53 to 56. -/
def strongest (ct cr ch : Option ℚ) : String := (strongestTriple ct cr ch).1

/-- Loader of home.py (load_raw): read_csv then column renaming; any fetch or
parse exception propagates to the caller — there is no try/except inside
load_raw, so the error branch of the fetch outcome passes through. -/
def homeLoadRaw (f : Except String RawTable) : Except String RawTable :=
  f.map normalizeCols

/-- Loader of hfmd_visualisation.py (load_data): exceptions are caught inside the
function, the message is displayed, and an empty DataFrame is returned as the
failure value. -/
def hfmdLoadData (f : Except String RawTable) : RawTable :=
  match f with
  | .ok t => t
  | .error _ => ⟨[], []⟩

/-- Loader of regional_comparison.py (load_data): identical failure behaviour. -/
def regionalLoadData (f : Except String RawTable) : RawTable := hfmdLoadData f

def allNone (l : List (Option ℚ)) : Bool := l.all fun o => o.isNone

/-- Full home.py pipeline over a fetch outcome. The try/except of lines 26 to 66
turns any exception into a displayed message plus st.stop, modelled as the
caught error; internal st.stop halts are the other error constructors. -/
def homeTop (f : Except String RawTable) :
    Except PipeError (MonTable × Option Nat × List Nat) :=
  match homeLoadRaw f with
  | .error e => .error (.caught e)
  | .ok raw =>
    match homeNormalize raw with
    | .error e => .error e
    | .ok t =>
      let A := aggregate t
      if A.rows.isEmpty || allNone (colVals A "total_cases") then .error .emptyMonthly
      else .ok (A, peakYear A, seasonalPeakList A)

/-- Full hfmd_visualisation.py pipeline: empty-table check directly after load,
then normalization, aggregation and the correlation summary. -/
def hfmdTop (f : Except String RawTable) :
    Except PipeError (MonTable × (Option ℚ × Option ℚ × Option ℚ) × String) :=
  let df := hfmdLoadData f
  if df.rows.isEmpty then .error .datasetNotLoaded
  else
    match hfmdNormalize (normalizeCols df) with
    | .error e => .error e
    | .ok t =>
      let A := aggregate t
      let ct := safe_corr A "temp_c" "total_cases"
      let cr := safe_corr A "rain_c" "total_cases"
      let ch := safe_corr A "rh_c" "total_cases"
      .ok (A, (ct, cr, ch), strongest ct cr ch)

/-- Full regional_comparison.py pipeline up to its monthly table. -/
def regionalTop (f : Except String RawTable) : Except PipeError MonTable :=
  let df := regionalLoadData f
  if df.rows.isEmpty then .error .dataNotLoaded
  else
    match regionalNormalize (normalizeCols df) with
    | .error e => .error e
    | .ok t => .ok (aggregate t)

/-! Concrete inputs used by the counterexamples and witnesses below. -/

/-- Daily observations for January and March 2020 only (February has no data). -/
def exC1 : DayTable :=
  ⟨["total_cases"], [true], [(⟨2020, 1, 15⟩, [.num 5]), (⟨2020, 3, 15⟩, [.num 7])]⟩

/-- Raw table with one data row, no date column, and three region columns absent. -/
def exC2 : RawTable := ⟨["southern", "northern"], [[.num 1, .num 2]]⟩

/-- Raw table with a date column and rows but no borneo column. -/
def exC2w : RawTable :=
  ⟨["date", "southern", "northern", "central", "east_coast"],
   [[.txt "15/01/2020", .num 1, .num 2, .num 3, .num 4]]⟩

/-- Monthly table of the spec scenario: Jan to Dec 2020, total_cases 150 every month. -/
def exC3 : MonTable :=
  ⟨["total_cases"],
   [(⟨2020, 1, 31⟩, [some 150]), (⟨2020, 2, 29⟩, [some 150]), (⟨2020, 3, 31⟩, [some 150]),
    (⟨2020, 4, 30⟩, [some 150]), (⟨2020, 5, 31⟩, [some 150]), (⟨2020, 6, 30⟩, [some 150]),
    (⟨2020, 7, 31⟩, [some 150]), (⟨2020, 8, 31⟩, [some 150]), (⟨2020, 9, 30⟩, [some 150]),
    (⟨2020, 10, 31⟩, [some 150]), (⟨2020, 11, 30⟩, [some 150]),
    (⟨2020, 12, 31⟩, [some 150])]⟩

/-- Monthly table with no weather columns at all. -/
def exC4 : MonTable :=
  ⟨["total_cases"], [(⟨2020, 1, 31⟩, [some 5]), (⟨2020, 2, 29⟩, [some 6])]⟩

/-- Raw table whose southern column mixes text and a number: pandas gives the whole
column object dtype, so the 5 in the second row is dropped from its total. -/
def exC5 : RawTable :=
  ⟨["date", "southern", "northern", "central", "east_coast", "borneo"],
   [[.txt "15/01/2020", .txt "x", .txt "x", .txt "x", .txt "x", .txt "x"],
    [.txt "16/01/2020", .num 5, .txt "x", .txt "x", .txt "x", .txt "x"]]⟩

/-- Second data row of exC5. -/
def exC5row : List Cell := [.txt "16/01/2020", .num 5, .txt "x", .txt "x", .txt "x", .txt "x"]

/-- Expected home normalization of exC5: every region column is object dtype, so
both code totals are 0. -/
def exC5home : DayTable :=
  ⟨["date", "southern", "northern", "central", "east_coast", "borneo", "total_cases"],
   [false, false, false, false, false, false, true],
   [(⟨2020, 1, 15⟩,
     [.txt "15/01/2020", .txt "x", .txt "x", .txt "x", .txt "x", .txt "x", .num 0]),
    (⟨2020, 1, 16⟩,
     [.txt "16/01/2020", .num 5, .txt "x", .txt "x", .txt "x", .txt "x", .num 0])]⟩

/-- Clean raw table: all region columns numeric, one value missing. -/
def exC5w : RawTable :=
  ⟨["date", "southern", "northern", "central", "east_coast", "borneo"],
   [[.txt "15/01/2020", .num 1, .num 2, .na, .num 3, .num 4]]⟩

/-- The single data row of exC5w. -/
def exC5wrow : List Cell := [.txt "15/01/2020", .num 1, .num 2, .na, .num 3, .num 4]

/-- Monthly table with two years of identical average total_cases. -/
def exC6 : MonTable :=
  ⟨["total_cases"], [(⟨2020, 1, 31⟩, [some 10]), (⟨2021, 1, 31⟩, [some 10])]⟩

/-- Raw table whose rows arrive in reverse chronological order. -/
def exC7 : RawTable :=
  ⟨["date", "southern", "northern", "central", "east_coast", "borneo"],
   [[.txt "15/02/2020", .txt "x", .txt "x", .txt "x", .txt "x", .txt "x"],
    [.txt "15/01/2020", .txt "x", .txt "x", .txt "x", .txt "x", .txt "x"]]⟩

/-- Expected hfmd normalization of exC7: source order is kept, dates descending. -/
def exC7hfmd : DayTable :=
  ⟨["date", "southern", "northern", "central", "east_coast", "borneo", "total_cases"],
   [false, false, false, false, false, false, true],
   [(⟨2020, 2, 15⟩,
     [.txt "15/02/2020", .txt "x", .txt "x", .txt "x", .txt "x", .txt "x", .num 0]),
    (⟨2020, 1, 15⟩,
     [.txt "15/01/2020", .txt "x", .txt "x", .txt "x", .txt "x", .txt "x", .num 0])]⟩

/-- Expected home normalization of exC7: rows sorted ascending by date. -/
def exC7home : DayTable :=
  ⟨["date", "southern", "northern", "central", "east_coast", "borneo", "total_cases"],
   [false, false, false, false, false, false, true],
   [(⟨2020, 1, 15⟩,
     [.txt "15/01/2020", .txt "x", .txt "x", .txt "x", .txt "x", .txt "x", .num 0]),
    (⟨2020, 2, 15⟩,
     [.txt "15/02/2020", .txt "x", .txt "x", .txt "x", .txt "x", .txt "x", .num 0])]⟩

/-- Successfully fetched table with headers but zero data rows. -/
def exC10 : RawTable := ⟨["date", "southern"], []⟩

/-! Helper lemmas about lists and keys. -/

theorem map_getD_range {α : Type} (l : List α) (dv : α) :
    (List.range l.length).map (fun j => l.getD j dv) = l := by
  induction l with
  | nil => rfl
  | cons a tl ih =>
    rw [List.length_cons, List.range_succ_eq_map, List.map_cons, List.map_map]
    simp only [Function.comp_def, List.getD_cons_succ, List.getD_cons_zero]
    rw [ih]

theorem getD_map_eq {α β : Type} (f : α → β) (dv : α) :
    ∀ (l : List α) (j : Nat), (l.map f).getD j (f dv) = f (l.getD j dv)
  | [], _ => by simp
  | _ :: _, 0 => rfl
  | a :: tl, j + 1 => by
    rw [List.map_cons, List.getD_cons_succ, List.getD_cons_succ]
    exact getD_map_eq f dv tl j

theorem foldl_min_le (l : List Nat) (k : Nat) : l.foldl min k ≤ k := by
  induction l generalizing k with
  | nil => exact Nat.le_refl k
  | cons a tl ih => exact Nat.le_trans (ih (min k a)) (Nat.min_le_left k a)

theorem foldl_min_le_mem {x : Nat} : ∀ (l : List Nat) (k : Nat), x ∈ l → l.foldl min k ≤ x
  | a :: tl, k, hx => by
    rcases List.mem_cons.mp hx with h | h
    · subst h
      exact Nat.le_trans (foldl_min_le tl (min k x)) (Nat.min_le_right k x)
    · exact foldl_min_le_mem tl (min k a) h

theorem le_foldl_min : ∀ (l : List Nat) (k : Nat), (∀ x ∈ l, k ≤ x) → k ≤ l.foldl min k
  | [], k, _ => Nat.le_refl k
  | a :: tl, k, h => by
    have hk : min k a = k := Nat.min_eq_left (h a (List.mem_cons_self a tl))
    rw [List.foldl_cons, hk]
    exact le_foldl_min tl k fun x hx => h x (List.mem_cons_of_mem a hx)

theorem foldl_min_eq (l : List Nat) (k : Nat) (h : ∀ x ∈ l, k ≤ x) : l.foldl min k = k :=
  Nat.le_antisymm (foldl_min_le l k) (le_foldl_min l k h)

theorem le_foldl_max : ∀ (l : List Nat) (k : Nat), k ≤ l.foldl max k
  | [], k => Nat.le_refl k
  | a :: tl, k => Nat.le_trans (Nat.le_max_left k a) (le_foldl_max tl (max k a))

theorem mem_le_foldl_max {x : Nat} : ∀ (l : List Nat) (k : Nat), x ∈ l → x ≤ l.foldl max k
  | a :: tl, k, hx => by
    rcases List.mem_cons.mp hx with h | h
    · subst h
      exact Nat.le_trans (Nat.le_max_right k x) (le_foldl_max tl (max k x))
    · exact mem_le_foldl_max tl (max k a) h

theorem foldl_max_le : ∀ (l : List Nat) (k b : Nat), k ≤ b → (∀ x ∈ l, x ≤ b) →
    l.foldl max k ≤ b
  | [], _, _, hk, _ => hk
  | a :: tl, k, b, hk, h => by
    rw [List.foldl_cons]
    exact foldl_max_le tl (max k a) b
      (Nat.max_le.mpr ⟨hk, h a (List.mem_cons_self a tl)⟩)
      fun x hx => h x (List.mem_cons_of_mem a hx)

theorem foldl_max_eq (l : List Nat) (k b : Nat) (hk : k ≤ b) (hb : b = k ∨ b ∈ l)
    (h : ∀ x ∈ l, x ≤ b) : l.foldl max k = b := by
  apply Nat.le_antisymm (foldl_max_le l k b hk h)
  rcases hb with rfl | hbm
  · exact le_foldl_max l b
  · exact mem_le_foldl_max l k hbm

theorem filterMap_range_map_eq_nil {β γ : Type} (c : Nat) (g : Nat → β) (p : β → Option γ)
    (hp : ∀ j, j < c → p (g j) = none) : ((List.range c).map g).filterMap p = [] := by
  rw [List.filterMap_eq_nil_iff]
  intro a ha
  rcases List.mem_map.mp ha with ⟨j, hj, rfl⟩
  exact hp j (List.mem_range.mp hj)

theorem filterMap_range_map_single {β γ : Type} :
    ∀ (c i : Nat) (g : Nat → β) (p : β → Option γ), i < c →
      (∀ j, j < c → j ≠ i → p (g j) = none) →
      ((List.range c).map g).filterMap p = (p (g i)).toList
  | 0, i, _, _, hi, _ => absurd hi (Nat.not_lt_zero i)
  | c + 1, i, g, p, hi, hp => by
    rw [List.range_succ, List.map_append, List.filterMap_append]
    rcases Nat.lt_succ_iff_lt_or_eq.mp hi with h | rfl
    · rw [filterMap_range_map_single c i g p h fun j hj hne => hp j (Nat.lt_succ_of_lt hj) hne]
      have hz : p (g c) = none := hp c (Nat.lt_succ_self c) (by omega)
      simp [hz]
    · rw [filterMap_range_map_eq_nil i g p fun j hj => hp j (Nat.lt_succ_of_lt hj) (by omega)]
      cases hgc : p (g i) <;> simp [hgc]

theorem filterMap_map_sublist {α β γ : Type} (f : α → Option β) (g : β → γ) (h : α → γ)
    (hc : ∀ a b, f a = some b → g b = h a) :
    ∀ l : List α, ((l.filterMap f).map g).Sublist (l.map h)
  | [] => List.Sublist.refl []
  | a :: tl => by
    rw [List.map_cons, List.filterMap_cons]
    cases hf : f a with
    | none => exact List.Sublist.cons (h a) (filterMap_map_sublist f g h hc tl)
    | some b =>
      rw [List.map_cons, hc a b hf]
      exact List.Sublist.cons₂ (h a) (filterMap_map_sublist f g h hc tl)

theorem monTable_ext {A B : MonTable} (h1 : A.cols = B.cols) (h2 : A.rows = B.rows) : A = B := by
  cases A; cases B; cases h1; cases h2; rfl

theorem monthKey_monthEnd (k : Nat) : monthKey (monthEnd k) = k := by
  simp only [monthKey, monthEnd]
  omega

theorem mem_monthRangeList {k0 k1 x : Nat} : x ∈ monthRangeList k0 k1 ↔ k0 ≤ x ∧ x < k1 + 1 := by
  simp only [monthRangeList, List.mem_map, List.mem_range]
  constructor
  · rintro ⟨i, hi, rfl⟩
    omega
  · rintro ⟨h1, h2⟩
    exact ⟨x - k0, by omega, by omega⟩

theorem monthRangeList_cons (k0 k1 : Nat) (hk : k0 ≤ k1) :
    ∃ tail, monthRangeList k0 k1 = k0 :: tail ∧ (∀ x ∈ tail, k0 ≤ x ∧ x ≤ k1) ∧
      (k1 = k0 ∨ k1 ∈ tail) := by
  have hc : k1 + 1 - k0 = (k1 - k0) + 1 := by omega
  refine ⟨(List.range (k1 - k0)).map fun i => k0 + (i + 1), ?_, ?_, ?_⟩
  · rw [monthRangeList, hc, List.range_succ_eq_map, List.map_cons, List.map_map]
    rfl
  · intro x hx
    rcases List.mem_map.mp hx with ⟨i, hi, rfl⟩
    have := List.mem_range.mp hi
    omega
  · rcases Nat.eq_or_lt_of_le hk with rfl | hlt
    · exact Or.inl rfl
    · refine Or.inr (List.mem_map.mpr ⟨k1 - k0 - 1, List.mem_range.mpr (by omega), by omega⟩)

/-! Lemmas about month keys of a day table and the aggregator. -/

theorem kLo_le_mem (t : DayTable) (x : Nat) (hx : x ∈ monthKeys t) : kLo t ≤ x := by
  unfold kLo
  cases hkeys : monthKeys t with
  | nil => rw [hkeys] at hx; cases hx
  | cons k ks =>
    rw [hkeys] at hx
    rcases List.mem_cons.mp hx with rfl | h
    · exact foldl_min_le ks x
    · exact foldl_min_le_mem ks k h

theorem mem_le_kHi (t : DayTable) (x : Nat) (hx : x ∈ monthKeys t) : x ≤ kHi t := by
  unfold kHi
  cases hkeys : monthKeys t with
  | nil => rw [hkeys] at hx; cases hx
  | cons k ks =>
    rw [hkeys] at hx
    rcases List.mem_cons.mp hx with rfl | h
    · exact le_foldl_max ks x
    · exact mem_le_foldl_max ks k h

theorem kLo_le_kHi (t : DayTable) (h : t.rows ≠ []) : kLo t ≤ kHi t := by
  cases hr : t.rows with
  | nil => exact absurd hr h
  | cons r rs =>
    have hmem : monthKey r.1 ∈ monthKeys t := by
      rw [monthKeys, hr]
      exact List.mem_cons_self _ _
    exact Nat.le_trans (kLo_le_mem t _ hmem) (mem_le_kHi t _ hmem)

theorem kLo_kHi_of_keys (B : DayTable) (k0 k1 : Nat) (hk : k0 ≤ k1)
    (hkeys : monthKeys B = monthRangeList k0 k1) : kLo B = k0 ∧ kHi B = k1 := by
  obtain ⟨tail, hcons, htail, hlast⟩ := monthRangeList_cons k0 k1 hk
  rw [hcons] at hkeys
  constructor
  · unfold kLo
    rw [hkeys]
    exact foldl_min_eq tail k0 fun x hx => (htail x hx).1
  · unfold kHi
    rw [hkeys]
    rcases hlast with rfl | hmem
    · exact foldl_max_eq tail k1 k1 (Nat.le_refl k1) (Or.inl rfl) fun x hx => (htail x hx).2
    · exact foldl_max_eq tail k0 k1 hk (Or.inr hmem) fun x hx => (htail x hx).2

theorem aggregate_rows (t : DayTable) (h : t.rows ≠ []) :
    (aggregate t).rows = (monthRangeList (kLo t) (kHi t)).map fun k =>
      (monthEnd k, (numIdxs t).map fun j => meanOpt (collectCol t k j)) := by
  have hne : t.rows.isEmpty = false := by
    cases hr : t.rows with
    | nil => exact absurd hr h
    | cons r rs => rfl
  simp only [aggregate, hne, Bool.false_eq_true, if_false]

theorem aggregate_rows_empty (t : DayTable) (h : t.rows = []) : (aggregate t).rows = [] := by
  simp only [aggregate, h, List.isEmpty_nil, if_true]

theorem toQ_oToCell (o : Option ℚ) : toQ (oToCell o) = o := by
  cases o <;> rfl

theorem meanOpt_toList (o : Option ℚ) : meanOpt o.toList = o := by
  cases o with
  | none => rfl
  | some q => simp [meanOpt]

theorem numIdxs_monToDay (A : MonTable) : numIdxs (monToDay A) = List.range A.cols.length := by
  apply List.filter_eq_self.mpr
  intro j hj
  have hjlt : j < A.cols.length := List.mem_range.mp hj
  show (A.cols.map fun _ => true).getD j false = true
  rw [List.getD_eq_getElem?_getD, List.getElem?_map, List.getElem?_eq_getElem hjlt]
  rfl

theorem aggregate_monToDay_cols (A : MonTable) : (aggregate (monToDay A)).cols = A.cols := by
  show ((numIdxs (monToDay A)).map fun j => A.cols.getD j "") = A.cols
  rw [numIdxs_monToDay]
  exact map_getD_range A.cols ""

theorem monthKeys_monToDay (A : MonTable) :
    monthKeys (monToDay A) = A.rows.map fun r => monthKey r.1 := by
  simp [monthKeys, monToDay]

theorem aggregate_cols_length (t : DayTable) :
    (aggregate t).cols.length = (numIdxs t).length := by
  simp [aggregate]

theorem monToDay_aggregate_rows (t : DayTable) (h : t.rows ≠ []) :
    (monToDay (aggregate t)).rows =
      (List.range (kHi t + 1 - kLo t)).map fun i =>
        (monthEnd (kLo t + i),
         ((numIdxs t).map fun j => meanOpt (collectCol t (kLo t + i) j)).map oToCell) := by
  show (aggregate t).rows.map _ = _
  rw [aggregate_rows t h, monthRangeList, List.map_map, List.map_map]
  apply List.map_congr_left
  intro i _
  rfl

theorem collectCol_monToDay_aggregate (t : DayTable) (h : t.rows ≠ []) (j : Nat) (i0 : Nat)
    (hi0 : i0 < kHi t + 1 - kLo t) :
    collectCol (monToDay (aggregate t)) (kLo t + i0) j =
      (((numIdxs t).map fun i => meanOpt (collectCol t (kLo t + i0) i)).getD j none).toList := by
  rw [collectCol, monToDay_aggregate_rows t h]
  rw [filterMap_range_map_single (kHi t + 1 - kLo t) i0 _ _ hi0 ?side]
  case side =>
    intro j2 hj2 hne
    simp only [monthKey_monthEnd]
    rw [if_neg (by omega)]
  · rw [monthKey_monthEnd, if_pos rfl]
    have hna : (Cell.na) = oToCell none := rfl
    rw [hna, getD_map_eq oToCell none, toQ_oToCell]

/-- Claim C9: aggregating a monthly aggregate again, grouped by its own
(Year, Month) bins, reproduces the same table: every bin holds exactly one row
and the mean of a singleton is the value itself (or NaN for an empty bin). -/
theorem c9_aggregate_idempotent (t : DayTable) :
    aggregate (monToDay (aggregate t)) = aggregate t := by
  apply monTable_ext (aggregate_monToDay_cols (aggregate t))
  by_cases h : t.rows = []
  · have h1 : (aggregate t).rows = [] := aggregate_rows_empty t h
    have h2 : (monToDay (aggregate t)).rows = [] := by
      simp [monToDay, h1]
    rw [aggregate_rows_empty _ h2, h1]
  · have hk : kLo t ≤ kHi t := kLo_le_kHi t h
    have hrows := aggregate_rows t h
    have hkeys : monthKeys (monToDay (aggregate t)) = monthRangeList (kLo t) (kHi t) := by
      rw [monthKeys_monToDay, hrows, List.map_map]
      have hcomp : ((fun r : D × List (Option ℚ) => monthKey r.1) ∘ fun k =>
          (monthEnd k, (numIdxs t).map fun j => meanOpt (collectCol t k j))) =
          fun k => monthKey (monthEnd k) := rfl
      rw [hcomp]
      calc (monthRangeList (kLo t) (kHi t)).map (fun k => monthKey (monthEnd k))
          = (monthRangeList (kLo t) (kHi t)).map id :=
            List.map_congr_left fun k _ => monthKey_monthEnd k
        _ = monthRangeList (kLo t) (kHi t) := List.map_id _
    have hBne : (monToDay (aggregate t)).rows ≠ [] := by
      intro hcon
      have hnil : monthKeys (monToDay (aggregate t)) = [] := by
        rw [monthKeys, hcon]
        rfl
      rw [hkeys] at hnil
      obtain ⟨tail, hcons, -, -⟩ := monthRangeList_cons (kLo t) (kHi t) hk
      rw [hcons] at hnil
      cases hnil
    obtain ⟨hLo, hHi⟩ := kLo_kHi_of_keys _ (kLo t) (kHi t) hk hkeys
    rw [aggregate_rows _ hBne, hLo, hHi, hrows]
    apply List.map_congr_left
    intro k hkmem
    obtain ⟨i0, hi0r, rfl⟩ : ∃ i0, i0 ∈ List.range (kHi t + 1 - kLo t) ∧ kLo t + i0 = k :=
      List.mem_map.mp hkmem
    have hi0 : i0 < kHi t + 1 - kLo t := List.mem_range.mp hi0r
    refine congrArg (Prod.mk (monthEnd (kLo t + i0))) ?_
    rw [numIdxs_monToDay]
    have hlen : (aggregate t).cols.length =
        ((numIdxs t).map fun i => meanOpt (collectCol t (kLo t + i0) i)).length := by
      rw [aggregate_cols_length, List.length_map]
    rw [hlen]
    calc (List.range ((numIdxs t).map fun i => meanOpt (collectCol t (kLo t + i0) i)).length).map
          (fun j => meanOpt (collectCol (monToDay (aggregate t)) (kLo t + i0) j))
        = (List.range ((numIdxs t).map fun i =>
            meanOpt (collectCol t (kLo t + i0) i)).length).map
          (fun j => ((numIdxs t).map fun i => meanOpt (collectCol t (kLo t + i0) i)).getD j none) := by
          apply List.map_congr_left
          intro j _
          rw [collectCol_monToDay_aggregate t h j i0 hi0, meanOpt_toList]
      _ = (numIdxs t).map fun i => meanOpt (collectCol t (kLo t + i0) i) :=
          map_getD_range _ none

/-- Claim C1 as stated is false: resample("M") produces one bin per calendar
month from the first to the last observation month, so a month with no
observation inside that span still gets a (all-NaN) row. exC1 has observations
in January and March 2020 only, yet the aggregate has three rows including a
synthetic February row. -/
theorem c1_counterexample :
    ((aggregate exC1).rows.map fun r => (r.1.y, r.1.m)) = [(2020, 1), (2020, 2), (2020, 3)] ∧
    (exC1.rows.map fun r => (r.1.y, r.1.m)) = [(2020, 1), (2020, 3)] ∧
    (aggregate exC1).rows.length = 3 ∧
    ¬ ((2020, 2) ∈ exC1.rows.map fun r => (r.1.y, r.1.m)) :=
  ⟨by decide, by decide, by decide, by decide⟩

/-- Claim C1 amended: for a nonempty set of valid daily observations the monthly
aggregate has exactly one row per calendar month of the closed range from the
earliest to the latest observation month — the (Year, Month) pairs are the
mapped month range, strictly increasing chronologically (hence unique), every
observed month appears, and the row count is the length of that closed range
(not the number of distinct observed months). -/
theorem c1_month_range (t : DayTable) (h : t.rows ≠ [])
    (hv : ∀ r ∈ t.rows, 1 ≤ r.1.m ∧ r.1.m ≤ 12) :
    ((aggregate t).rows.map fun r => (r.1.y, r.1.m)) =
      (monthRangeList (kLo t) (kHi t)).map (fun k => (k / 12, k % 12 + 1)) ∧
    List.Chain' (fun a b : Nat × Nat => a.1 < b.1 ∨ (a.1 = b.1 ∧ a.2 < b.2))
      ((aggregate t).rows.map fun r => (r.1.y, r.1.m)) ∧
    (∀ r ∈ t.rows, (r.1.y, r.1.m) ∈ (aggregate t).rows.map fun r2 => (r2.1.y, r2.1.m)) ∧
    (aggregate t).rows.length = kHi t + 1 - kLo t := by
  have hpairs : ((aggregate t).rows.map fun r => (r.1.y, r.1.m)) =
      (monthRangeList (kLo t) (kHi t)).map (fun k => (k / 12, k % 12 + 1)) := by
    rw [aggregate_rows t h, List.map_map]
    apply List.map_congr_left
    intro k _
    rfl
  refine ⟨hpairs, ?_, ?_, ?_⟩
  · rw [hpairs, monthRangeList, List.map_map]
    cases hc : kHi t + 1 - kLo t with
    | zero => simp
    | succ n =>
      rw [List.chain'_map]
      apply (List.chain'_range_succ _ n).mpr
      intro m _
      simp only [Function.comp_apply]
      omega
  · intro r hr
    rw [hpairs]
    have hk1 : monthKey r.1 ∈ monthKeys t := List.mem_map_of_mem _ hr
    have hlo := kLo_le_mem t _ hk1
    have hhi := mem_le_kHi t _ hk1
    apply List.mem_map.mpr
    refine ⟨monthKey r.1, mem_monthRangeList.mpr ⟨hlo, by omega⟩, ?_⟩
    obtain ⟨h1, h2⟩ := hv r hr
    have hky : monthKey r.1 = 12 * r.1.y + (r.1.m - 1) := rfl
    refine Prod.ext ?_ ?_ <;> simp only [hky] <;> omega
  · rw [aggregate_rows t h, List.length_map, monthRangeList, List.length_map, List.length_range]

/-- Witness for the amended claim C1 at the concrete two-month input. -/
theorem c1_witness :
    (exC1.rows ≠ [] ∧ ∀ r ∈ exC1.rows, 1 ≤ r.1.m ∧ r.1.m ≤ 12) ∧
    (aggregate exC1).rows.length = kHi exC1 + 1 - kLo exC1 :=
  ⟨⟨by decide, by decide⟩, (c1_month_range exC1 (by decide) (by decide)).2.2.2⟩

/-- Claim C8 as stated is false for home.py: load_raw has no try/except, so a
failing fetch propagates the exception (the error outcome) to its caller
instead of returning a Failure value the way load_data does — load_data
returns the empty table on the same failure. -/
theorem c8_counterexample :
    homeLoadRaw (Except.error "connection refused") = Except.error "connection refused" ∧
    hfmdLoadData (Except.error "connection refused") = ⟨[], []⟩ :=
  ⟨rfl, rfl⟩

/-- Claim C8 amended: the load_data loaders of hfmd_visualisation.py and
regional_comparison.py return an empty-table Failure on any fetch error and
their callers halt with a fixed message; home.py instead lets the exception
reach the try/except around its pipeline, which halts displaying the message.
In every pipeline a fetch failure produces a terminal error and no monthly
aggregate or statistics. -/
theorem c8_failure_path (e : String) :
    homeTop (Except.error e) = Except.error (.caught e) ∧
    (PipeError.caught e).message = "Error: " ++ e ∧
    hfmdTop (Except.error e) = Except.error .datasetNotLoaded ∧
    PipeError.datasetNotLoaded.message = "Dataset could not be loaded. Please check the URL." ∧
    regionalTop (Except.error e) = Except.error .dataNotLoaded ∧
    PipeError.dataNotLoaded.message =
      "Data could not be loaded. Please check the URL and try again." ∧
    hfmdLoadData (Except.error e) = ⟨[], []⟩ :=
  ⟨rfl, rfl, rfl, rfl, rfl, rfl, rfl⟩

/-- Claim C10: a successfully fetched table with zero rows is indistinguishable
from a fetch failure at the caller: load_data represents failure as the empty
table, df.empty is true in both cases, and the pipeline halts with the same
dataset-not-loaded message; the regional page behaves the same way. -/
theorem c10_empty_indistinguishable (t : RawTable) (e : String) (h : t.rows = []) :
    hfmdTop (Except.ok t) = Except.error .datasetNotLoaded ∧
    hfmdTop (Except.ok t) = hfmdTop (Except.error e) ∧
    regionalTop (Except.ok t) = regionalTop (Except.error e) ∧
    hfmdLoadData (Except.error e) = ⟨[], []⟩ ∧
    PipeError.datasetNotLoaded.message = "Dataset could not be loaded. Please check the URL." := by
  have h1 : hfmdTop (Except.ok t) = Except.error .datasetNotLoaded := by
    simp [hfmdTop, hfmdLoadData, h]
  have h2 : regionalTop (Except.ok t) = Except.error .dataNotLoaded := by
    simp [regionalTop, regionalLoadData, hfmdLoadData, h]
  exact ⟨h1, by rw [h1]; rfl, by rw [h2]; rfl, rfl, rfl⟩

/-- Witness for claim C10 at a concrete headers-only table. -/
theorem c10_witness :
    exC10.rows = [] ∧ hfmdTop (Except.ok exC10) = hfmdTop (Except.error "boom") :=
  ⟨rfl, (c10_empty_indistinguishable exC10 "boom" rfl).2.1⟩

/-- Claim C2 as stated is false: when the date column is also missing, home.py
fails at the earlier date check and never reports the missing region columns.
exC2 lacks the date column and three region columns, yet the pipeline error is
the missing-date one, which names no region column. -/
theorem c2_counterexample :
    homeTop (Except.ok exC2) = Except.error .missingDate ∧
    (regions.filter fun c => decide (c ∉ (normalizeCols exC2).cols)) =
      ["central", "east_coast", "borneo"] ∧
    PipeError.missingDate ≠ PipeError.missingRegions ["central", "east_coast", "borneo"] :=
  ⟨by decide, by decide, by decide⟩

/-- Claim C2 amended: provided the normalized columns include date (home.py fails
earlier otherwise) — and, for the visualisation page, the table has at least one
row (its emptiness guard fires first) — a table missing region columns makes
home.py stop with the schema message listing exactly the missing region columns,
and makes hfmd_visualisation.py raise a KeyError listing the same columns; in
both cases no monthly aggregate or statistics are produced. -/
theorem c2_missing_regions (raw : RawTable)
    (hd : "date" ∈ (normalizeCols raw).cols)
    (hm : (regions.filter fun c => decide (c ∉ (normalizeCols raw).cols)) ≠ []) :
    homeTop (Except.ok raw) =
      Except.error (.missingRegions (regions.filter fun c =>
        decide (c ∉ (normalizeCols raw).cols))) ∧
    (raw.rows ≠ [] →
      hfmdTop (Except.ok raw) =
        Except.error (.keyErr (regions.filter fun c =>
          decide (c ∉ (normalizeCols raw).cols)))) := by
  have hn : homeNormalize (normalizeCols raw) =
      Except.error (.missingRegions (regions.filter fun c =>
        decide (c ∉ (normalizeCols raw).cols))) := by
    simp only [homeNormalize]
    rw [if_pos hd, if_neg hm]
  have hn2 : hfmdNormalize (normalizeCols raw) =
      Except.error (.keyErr (regions.filter fun c =>
        decide (c ∉ (normalizeCols raw).cols))) := by
    simp only [hfmdNormalize]
    rw [if_pos hd, if_neg hm]
  constructor
  · show (match homeNormalize (normalizeCols raw) with
      | .error e => Except.error e
      | .ok u =>
        if (aggregate u).rows.isEmpty || allNone (colVals (aggregate u) "total_cases") then
          Except.error .emptyMonthly
        else .ok (aggregate u, peakYear (aggregate u), seasonalPeakList (aggregate u))) = _
    rw [hn]
  · intro hrows
    have hne : raw.rows.isEmpty = false := by
      cases hr : raw.rows with
      | nil => exact absurd hr hrows
      | cons a l => rfl
    show (if raw.rows.isEmpty then _ else _) = _
    rw [hne]
    show (match hfmdNormalize (normalizeCols raw) with
      | .error e => Except.error e
      | .ok u => _) = _
    rw [hn2]

/-- Witness for the amended claim C2 at a table that has the date column, one
row, and no borneo column. -/
theorem c2_witness :
    ("date" ∈ (normalizeCols exC2w).cols ∧
      (regions.filter fun c => decide (c ∉ (normalizeCols exC2w).cols)) = ["borneo"]) ∧
    homeTop (Except.ok exC2w) = Except.error (.missingRegions ["borneo"]) ∧
    hfmdTop (Except.ok exC2w) = Except.error (.keyErr ["borneo"]) := by
  have h := c2_missing_regions exC2w (by decide) (by decide)
  have hf : (regions.filter fun c => decide (c ∉ (normalizeCols exC2w).cols)) = ["borneo"] := by
    decide
  rw [hf] at h
  exact ⟨⟨by decide, hf⟩, h.1, h.2 (by decide)⟩

/-- Claim C7 as stated is false: hfmd_visualisation.py never sorts the daily
rows, so an input in reverse chronological order is normalized still in reverse
order (here February before January 2020). -/
theorem c7_counterexample :
    hfmdNormalize exC7 = Except.ok exC7hfmd ∧
    (exC7hfmd.rows.map fun r => dateKey r.1) =
      [dateKey ⟨2020, 2, 15⟩, dateKey ⟨2020, 1, 15⟩] ∧
    dateKey ⟨2020, 1, 15⟩ < dateKey ⟨2020, 2, 15⟩ :=
  ⟨by decide, by decide, by decide⟩

/-- Claim C7 amended: only home.py sorts the normalized rows, ascending by the
parsed date (its sort is pandas sort_values with the default quicksort, whose
order among equal dates is implementation defined and not modelled);
hfmd_visualisation.py applies no sort at all — its normalized rows keep their
relative source order exactly, with only the unparseable-date rows removed and
the total column appended. -/
theorem c7_sort_behaviour :
    (∀ (raw : RawTable) (u : DayTable), homeNormalize raw = Except.ok u →
      List.Pairwise (fun a b : D × List Cell => dateKey a.1 ≤ dateKey b.1) u.rows) ∧
    (∀ (raw : RawTable) (u : DayTable), hfmdNormalize raw = Except.ok u →
      (u.rows.map fun r => r.2.dropLast).Sublist (raw.rows.map (padCells raw.cols.length))) := by
  constructor
  · intro raw u h
    by_cases h1 : "date" ∈ raw.cols
    · by_cases h2 : (regions.filter fun c => decide (c ∉ raw.cols)) = []
      · have hu : withTotal raw (List.insertionSort dle (parsedRows raw)) = u.rows := by
          simp only [homeNormalize, if_pos h1, if_pos h2, Except.ok.injEq] at h
          rw [← h]
        rw [← hu]
        show List.Pairwise _ ((List.insertionSort dle (parsedRows raw)).map _)
        rw [List.pairwise_map]
        exact List.sorted_insertionSort dle (parsedRows raw)
      · simp only [homeNormalize, if_pos h1, if_neg h2] at h
        cases h
    · simp only [homeNormalize, if_neg h1] at h
      cases h
  · intro raw u h
    by_cases h1 : "date" ∈ raw.cols
    · by_cases h2 : (regions.filter fun c => decide (c ∉ raw.cols)) = []
      · have hu : withTotal raw (parsedRows raw) = u.rows := by
          simp only [hfmdNormalize, if_pos h1, if_pos h2, Except.ok.injEq] at h
          rw [← h]
        rw [← hu, withTotal, List.map_map]
        have hfun : ((fun r : D × List Cell => r.2.dropLast) ∘ fun x : D × List Cell =>
            (x.1, x.2 ++ [Cell.num (codeRowTotal raw x.2)])) =
            fun x : D × List Cell => x.2 := by
          funext x
          simp [List.dropLast_concat]
        rw [hfun, parsedRows]
        refine filterMap_map_sublist _ (fun x : D × List Cell => x.2)
          (padCells raw.cols.length) ?_ raw.rows
        intro a b hf
        rcases Option.map_eq_some'.mp hf with ⟨d, -, rfl⟩
        rfl
      · simp only [hfmdNormalize, if_pos h1, if_neg h2] at h
        cases h
    · simp only [hfmdNormalize, if_neg h1] at h
      cases h

/-- Witness for the amended claim C7 at the reverse-ordered concrete input. -/
theorem c7_witness :
    homeNormalize exC7 = Except.ok exC7home ∧
    List.Pairwise (fun a b : D × List Cell => dateKey a.1 ≤ dateKey b.1) exC7home.rows ∧
    (exC7hfmd.rows.map fun r => r.2.dropLast).Sublist
      (exC7.rows.map (padCells exC7.cols.length)) :=
  ⟨by decide, c7_sort_behaviour.1 exC7 exC7home (by decide),
   c7_sort_behaviour.2 exC7 exC7hfmd (by decide)⟩

/-- Claim C5 as stated is false: a single non-numeric value gives the whole
region column object dtype, and sum(axis=1, numeric_only=True) then drops that
column from every row total, not just from the offending row. In exC5 the
southern column holds text in row 1, so the 5 in row 2 is ignored: its code
total is 0 while the claimed per-row sum is 5. -/
theorem c5_counterexample :
    homeNormalize exC5 = Except.ok exC5home ∧
    codeRowTotal exC5 exC5row = 0 ∧
    specRowTotal exC5 exC5row = 5 ∧ (0 : ℚ) ≠ 5 :=
  ⟨by decide, by decide,
   by simp [specRowTotal, exC5, exC5row, regionIdxs, regions, toQ0, toQ], by decide⟩

/-- Claim C5 amended: each normalized row carries total_cases equal to the sum,
over the region columns whose entire column has numeric dtype, of the row
values with NaN treated as 0; when every region column is numeric this equals
the claimed sum of the row's five region values with missing as 0, and the
total is nonnegative whenever the row's region cells are nonnegative. -/
theorem c5_total_semantics :
    (∀ (raw : RawTable) (u : DayTable), homeNormalize raw = Except.ok u →
      ∀ x ∈ u.rows, x.2 = x.2.dropLast ++ [.num (codeRowTotal raw x.2.dropLast)]) ∧
    (∀ (raw : RawTable) (r : List Cell),
      (∀ j ∈ regionIdxs raw, colIsNumeric raw j = true) →
      codeRowTotal raw r = specRowTotal raw r) ∧
    (∀ (raw : RawTable) (r : List Cell),
      (∀ j ∈ regionIdxs raw, 0 ≤ toQ0 (r.getD j .na)) →
      0 ≤ codeRowTotal raw r) := by
  refine ⟨?_, ?_, ?_⟩
  · intro raw u h x hx
    by_cases h1 : "date" ∈ raw.cols
    · by_cases h2 : (regions.filter fun c => decide (c ∉ raw.cols)) = []
      · have hu : withTotal raw (List.insertionSort dle (parsedRows raw)) = u.rows := by
          simp only [homeNormalize, if_pos h1, if_pos h2, Except.ok.injEq] at h
          rw [← h]
        rw [← hu] at hx
        rcases List.mem_map.mp hx with ⟨y, -, rfl⟩
        rw [List.dropLast_concat]
      · simp only [homeNormalize, if_pos h1, if_neg h2] at h
        cases h
    · simp only [homeNormalize, if_neg h1] at h
      cases h
  · intro raw r hnum
    rw [codeRowTotal, specRowTotal, List.filter_eq_self.mpr hnum]
  · intro raw r hpos
    apply List.sum_nonneg
    intro x hx
    rcases List.mem_map.mp hx with ⟨j, hj, rfl⟩
    exact hpos j (List.mem_of_mem_filter hj)

/-- Witness for the amended claim C5 at a clean all-numeric table. -/
theorem c5_witness :
    ((∀ j ∈ regionIdxs exC5w, colIsNumeric exC5w j = true) ∧
      codeRowTotal exC5w exC5wrow = specRowTotal exC5w exC5wrow) ∧
    ((∀ j ∈ regionIdxs exC5w, 0 ≤ toQ0 (exC5wrow.getD j .na)) ∧
      0 ≤ codeRowTotal exC5w exC5wrow) :=
  ⟨⟨by decide, c5_total_semantics.2.1 exC5w exC5wrow (by decide)⟩,
   ⟨by decide, c5_total_semantics.2.2 exC5w exC5wrow (by decide)⟩⟩

/-! Lemmas about group keys and the stable argmax. -/

theorem dedupAdj_subset : ∀ (l : List Nat), ∀ x ∈ dedupAdj l, x ∈ l
  | [], _, hx => hx
  | [_], _, hx => hx
  | a :: b :: rest, x, hx => by
    simp only [dedupAdj] at hx
    by_cases hab : a = b
    · rw [if_pos hab] at hx
      exact List.mem_cons_of_mem a (dedupAdj_subset (b :: rest) x hx)
    · rw [if_neg hab] at hx
      rcases List.mem_cons.mp hx with rfl | h
      · exact List.mem_cons_self x (b :: rest)
      · exact List.mem_cons_of_mem a (dedupAdj_subset (b :: rest) x h)

theorem mem_dedupAdj : ∀ (l : List Nat), ∀ x ∈ l, x ∈ dedupAdj l
  | [], x, hx => absurd hx (List.not_mem_nil x)
  | [_], _, hx => hx
  | a :: b :: rest, x, hx => by
    simp only [dedupAdj]
    by_cases hab : a = b
    · rw [if_pos hab]
      rcases List.mem_cons.mp hx with rfl | h
      · refine mem_dedupAdj (b :: rest) x ?_
        rw [hab]
        exact List.mem_cons_self b rest
      · exact mem_dedupAdj (b :: rest) x h
    · rw [if_neg hab]
      rcases List.mem_cons.mp hx with rfl | h
      · exact List.mem_cons_self x _
      · exact List.mem_cons_of_mem a (mem_dedupAdj (b :: rest) x h)

theorem dedupAdj_pairwise : ∀ (l : List Nat), List.Pairwise (· ≤ ·) l →
    List.Pairwise (· < ·) (dedupAdj l)
  | [], _ => List.Pairwise.nil
  | [a], _ => by simp [dedupAdj]
  | a :: b :: rest, h => by
    simp only [dedupAdj]
    by_cases hab : a = b
    · rw [if_pos hab]
      exact dedupAdj_pairwise (b :: rest) h.of_cons
    · rw [if_neg hab]
      apply List.Pairwise.cons
      · intro x hx
        have hxmem : x ∈ b :: rest := dedupAdj_subset (b :: rest) x hx
        have hblex : b ≤ x := by
          rcases List.mem_cons.mp hxmem with rfl | hxr
          · exact le_refl x
          · exact (List.pairwise_cons.mp h.of_cons).1 x hxr
        have hab2 : a < b :=
          lt_of_le_of_ne ((List.pairwise_cons.mp h).1 b (List.mem_cons_self b rest)) hab
        exact lt_of_lt_of_le hab2 hblex
      · exact dedupAdj_pairwise (b :: rest) h.of_cons

theorem keysAsc_pairwise (l : List Nat) : List.Pairwise (· < ·) (keysAsc l) :=
  dedupAdj_pairwise _ (List.sorted_insertionSort (· ≤ ·) l)

theorem keysAsc_mem (l : List Nat) (x : Nat) (hx : x ∈ l) : x ∈ keysAsc l :=
  mem_dedupAdj _ x ((List.perm_insertionSort (· ≤ ·) l).mem_iff.mpr hx)

theorem yearMeans_pairwise (A : MonTable) :
    List.Pairwise (fun u v : Nat × Option ℚ => u.1 < v.1) (yearMeans A) :=
  List.pairwise_map.mpr (keysAsc_pairwise _)

theorem monthMeans_pairwise (A : MonTable) :
    List.Pairwise (fun u v : Nat × Option ℚ => u.1 < v.1) (monthMeans A) :=
  List.pairwise_map.mpr (keysAsc_pairwise _)

theorem pickMax_spec :
    ∀ (l : List (Nat × Option ℚ)) (a : Nat) (q : ℚ),
      (∀ x ∈ l, a < x.1) → List.Pairwise (fun u v : Nat × Option ℚ => u.1 < v.1) l →
      q ≤ (pickMax a q l).2 ∧
      ((pickMax a q l).2 = q → (pickMax a q l).1 = a) ∧
      (pickMax a q l = (a, q) ∨ ((pickMax a q l).1, some (pickMax a q l).2) ∈ l) ∧
      (∀ c r, (c, some r) ∈ l → r ≤ (pickMax a q l).2 ∧
        (r = (pickMax a q l).2 → (pickMax a q l).1 ≤ c))
  | [], a, q, _, _ =>
    ⟨le_refl q, fun _ => rfl, Or.inl rfl, fun _ _ hcr => absurd hcr (List.not_mem_nil _)⟩
  | (b, none) :: rest, a, q, ha, hp => by
    have heq : pickMax a q ((b, none) :: rest) = pickMax a q rest := by
      simp only [pickMax]
    obtain ⟨ih1, ih2, ih3, ih4⟩ :=
      pickMax_spec rest a q (fun x hx => ha x (List.mem_cons_of_mem _ hx)) hp.of_cons
    rw [heq]
    refine ⟨ih1, ih2, ?_, ?_⟩
    · rcases ih3 with he | hm
      · exact Or.inl he
      · exact Or.inr (List.mem_cons_of_mem _ hm)
    · intro c r hcr
      rcases List.mem_cons.mp hcr with hhd | htl
      · exfalso
        rw [Prod.mk.injEq] at hhd
        exact Option.noConfusion hhd.2
      · exact ih4 c r htl
  | (b, some p) :: rest, a, q, ha, hp => by
    have hb : ∀ x ∈ rest, b < x.1 := fun x hx => (List.pairwise_cons.mp hp).1 x hx
    by_cases hqp : q < p
    · have heq : pickMax a q ((b, some p) :: rest) = pickMax b p rest := by
        simp only [pickMax, if_pos hqp]
      obtain ⟨ih1, ih2, ih3, ih4⟩ := pickMax_spec rest b p hb hp.of_cons
      rw [heq]
      refine ⟨le_trans (le_of_lt hqp) ih1, ?_, ?_, ?_⟩
      · intro h2
        rw [h2] at ih1
        exact absurd (lt_of_lt_of_le hqp ih1) (lt_irrefl q)
      · rcases ih3 with he | hm
        · rw [he]
          exact Or.inr (List.mem_cons_self _ _)
        · exact Or.inr (List.mem_cons_of_mem _ hm)
      · intro c r hcr
        rcases List.mem_cons.mp hcr with hhd | htl
        · rw [Prod.mk.injEq] at hhd
          obtain ⟨rfl, hsr⟩ := hhd
          rw [Option.some.injEq] at hsr
          subst hsr
          refine ⟨ih1, fun hrp => ?_⟩
          rw [ih2 hrp.symm]
        · exact ih4 c r htl
    · have heq : pickMax a q ((b, some p) :: rest) = pickMax a q rest := by
        simp only [pickMax, if_neg hqp]
      obtain ⟨ih1, ih2, ih3, ih4⟩ :=
        pickMax_spec rest a q (fun x hx => ha x (List.mem_cons_of_mem _ hx)) hp.of_cons
      rw [heq]
      refine ⟨ih1, ih2, ?_, ?_⟩
      · rcases ih3 with he | hm
        · exact Or.inl he
        · exact Or.inr (List.mem_cons_of_mem _ hm)
      · intro c r hcr
        rcases List.mem_cons.mp hcr with hhd | htl
        · rw [Prod.mk.injEq] at hhd
          obtain ⟨rfl, hsr⟩ := hhd
          rw [Option.some.injEq] at hsr
          subst hsr
          have hple : r ≤ q := not_lt.mp hqp
          refine ⟨le_trans hple ih1, fun hrp => ?_⟩
          have hq2 : (pickMax a q rest).2 = q :=
            le_antisymm (hrp ▸ hple) ih1
          rw [ih2 hq2]
          exact le_of_lt (ha (c, some r) (List.mem_cons_self _ _))
        · exact ih4 c r htl

theorem idxmaxOpt_spec :
    ∀ (l : List (Nat × Option ℚ)),
      List.Pairwise (fun u v : Nat × Option ℚ => u.1 < v.1) l →
      ∀ y p, idxmaxOpt l = some (y, p) →
      (y, some p) ∈ l ∧ ∀ c r, (c, some r) ∈ l → r ≤ p ∧ (r = p → y ≤ c)
  | [], _, y, p, h => by simp [idxmaxOpt] at h
  | (a, none) :: rest, hp, y, p, h => by
    have heq : idxmaxOpt ((a, none) :: rest) = idxmaxOpt rest := by
      simp only [idxmaxOpt]
    rw [heq] at h
    obtain ⟨hmem, hall⟩ := idxmaxOpt_spec rest hp.of_cons y p h
    refine ⟨List.mem_cons_of_mem _ hmem, ?_⟩
    intro c r hcr
    rcases List.mem_cons.mp hcr with hhd | htl
    · exfalso
      rw [Prod.mk.injEq] at hhd
      exact Option.noConfusion hhd.2
    · exact hall c r htl
  | (a, some q) :: rest, hp, y, p, h => by
    have ha : ∀ x ∈ rest, a < x.1 := fun x hx => (List.pairwise_cons.mp hp).1 x hx
    have heq : idxmaxOpt ((a, some q) :: rest) = some (pickMax a q rest) := by
      simp only [idxmaxOpt]
    rw [heq, Option.some.injEq] at h
    obtain ⟨s1, s2, s3, s4⟩ := pickMax_spec rest a q ha hp.of_cons
    rw [h] at s1 s2 s3 s4
    refine ⟨?_, ?_⟩
    · rcases s3 with he | hm
      · rw [Prod.mk.injEq] at he
        rw [he.1, he.2]
        exact List.mem_cons_self _ _
      · exact List.mem_cons_of_mem _ hm
    · intro c r hcr
      rcases List.mem_cons.mp hcr with hhd | htl
      · rw [Prod.mk.injEq] at hhd
        obtain ⟨rfl, hsr⟩ := hhd
        rw [Option.some.injEq] at hsr
        subst hsr
        refine ⟨s1, fun hrp => ?_⟩
        exact le_of_eq (s2 hrp.symm)
      · exact s4 c r htl

/-- Claim C6: for a monthly aggregate with a defined peak year, that year is a
year actually present in the aggregate, its mean total_cases is maximal among
the defined per-year means, and on ties the smallest (earliest) year wins —
groupby sorts years ascending and idxmax keeps the first maximum. -/
theorem c6_peak_year (A : MonTable) (y : Nat) (h : peakYear A = some y) :
    (∀ r ∈ A.rows, r.1.y ∈ (yearMeans A).map Prod.fst) ∧
    ∃ q, (y, some q) ∈ yearMeans A ∧
      ∀ z p, (z, some p) ∈ yearMeans A → p ≤ q ∧ (p = q → y ≤ z) := by
  constructor
  · intro r hr
    have hfst : (yearMeans A).map Prod.fst = keysAsc (A.rows.map fun r2 => r2.1.y) := by
      rw [yearMeans, List.map_map]
      exact (List.map_congr_left fun g _ => rfl).trans (List.map_id _)
    rw [hfst]
    exact keysAsc_mem _ _ (List.mem_map_of_mem _ hr)
  · rw [peakYear] at h
    rcases Option.map_eq_some'.mp h with ⟨⟨y2, p⟩, hidx, hy⟩
    obtain rfl : y2 = y := hy
    obtain ⟨hmem, hall⟩ := idxmaxOpt_spec (yearMeans A) (yearMeans_pairwise A) y2 p hidx
    exact ⟨p, hmem, hall⟩

/-- Witness for claim C6 at two years with tied averages: the earlier year 2020
is returned. -/
theorem c6_witness :
    peakYear exC6 = some 2020 ∧
    ((∀ r ∈ exC6.rows, r.1.y ∈ (yearMeans exC6).map Prod.fst) ∧
      ∃ q, (2020, some q) ∈ yearMeans exC6 ∧
        ∀ z p, (z, some p) ∈ yearMeans exC6 → p ≤ q ∧ (p = q → 2020 ≤ z)) := by
  have hpk : peakYear exC6 = some 2020 := by
    simp [exC6, peakYear, yearMeans, keysAsc, dedupAdj, rowTotal, meanOptF, meanOpt,
      List.insertionSort, List.orderedInsert, idxmaxOpt, pickMax]
  exact ⟨hpk, c6_peak_year exC6 2020 hpk⟩

/-- Claim C3: the seasonal peak display is the ascending re-sort of the top
months; those are exactly 3 of the grouped months (or all of them when fewer
than 3 exist), every chosen month sorts before every unchosen one under the
order "higher mean first, NaN last, ties by lower month number" (the order
pandas realizes here because groupby emits at most 12 ascending rows and the
double-reversed insertion argsort keeps tied entries in ascending index
order), and in particular when all 12 months tie the display is
January-February-March. -/
theorem c3_seasonal_peaks (A : MonTable) :
    List.Sorted (· ≤ ·) (seasonalPeakList A) ∧
    (seasonalPeakList A).Perm (topMonths A) ∧
    (topMonths A).length = min 3 (monthMeans A).length ∧
    (∀ p ∈ monthMeans A, p.1 ∈ topMonths A →
      ∀ s ∈ monthMeans A, s.1 ∉ topMonths A → mLe p s) ∧
    (∀ c : ℚ, monthMeans A =
        [(1, some c), (2, some c), (3, some c), (4, some c), (5, some c), (6, some c),
         (7, some c), (8, some c), (9, some c), (10, some c), (11, some c), (12, some c)] →
      seasonalPeakList A = [1, 2, 3]) := by
  refine ⟨?_, ?_, ?_, ?_, ?_⟩
  · exact List.sorted_insertionSort (· ≤ ·) _
  · exact List.perm_insertionSort (· ≤ ·) _
  · rw [topMonths, List.length_map, List.length_take,
      (List.perm_insertionSort mLe (monthMeans A)).length_eq]
  · intro p hp hpt s hs hst
    have hS : List.Sorted mLe (List.insertionSort mLe (monthMeans A)) :=
      List.sorted_insertionSort mLe _
    have hperm := List.perm_insertionSort mLe (monthMeans A)
    have hpS : p ∈ List.insertionSort mLe (monthMeans A) := hperm.mem_iff.mpr hp
    have hsS : s ∈ List.insertionSort mLe (monthMeans A) := hperm.mem_iff.mpr hs
    have hsplit := List.take_append_drop 3 (List.insertionSort mLe (monthMeans A))
    have hsd : s ∈ (List.insertionSort mLe (monthMeans A)).drop 3 := by
      have hs2 : s ∈ (List.insertionSort mLe (monthMeans A)).take 3 ++
          (List.insertionSort mLe (monthMeans A)).drop 3 := by
        rw [hsplit]
        exact hsS
      rcases List.mem_append.mp hs2 with h | h
      · exact absurd (List.mem_map_of_mem Prod.fst h) hst
      · exact h
    have hnd : List.Nodup ((monthMeans A).map Prod.fst) :=
      (List.pairwise_map.mpr (monthMeans_pairwise A)).imp fun h => Nat.ne_of_lt h
    have hpt3 : p ∈ (List.insertionSort mLe (monthMeans A)).take 3 := by
      rcases List.mem_map.mp hpt with ⟨p2, hp2, hfst⟩
      have hp2M : p2 ∈ monthMeans A := hperm.mem_iff.mp (List.mem_of_mem_take hp2)
      have hpp : p2 = p := List.inj_on_of_nodup_map hnd hp2M hp hfst
      rwa [hpp] at hp2
    have hpw : List.Pairwise mLe ((List.insertionSort mLe (monthMeans A)).take 3 ++
        (List.insertionSort mLe (monthMeans A)).drop 3) := by
      rw [hsplit]
      exact hS
    exact (List.pairwise_append.mp hpw).2.2 p hpt3 s hsd
  · intro c hM
    have hlit : List.Sorted mLe
        ([(1, some c), (2, some c), (3, some c), (4, some c), (5, some c), (6, some c),
          (7, some c), (8, some c), (9, some c), (10, some c), (11, some c),
          (12, some c)] : List (Nat × Option ℚ)) := by
      simp [List.pairwise_cons, mLe]
    have hS12 : List.insertionSort mLe (monthMeans A) =
        [(1, some c), (2, some c), (3, some c), (4, some c), (5, some c), (6, some c),
         (7, some c), (8, some c), (9, some c), (10, some c), (11, some c), (12, some c)] := by
      rw [hM]
      exact List.eq_of_perm_of_sorted (List.perm_insertionSort mLe _)
        (List.sorted_insertionSort mLe _) hlit
    rw [seasonalPeakList, topMonths, hS12]
    show List.insertionSort (· ≤ ·) [1, 2, 3] = [1, 2, 3]
    decide

/-- Witness for claim C3 at the monthly table of the spec scenario (all twelve
months tied at 150). -/
theorem c3_witness :
    monthMeans exC3 =
      [(1, some 150), (2, some 150), (3, some 150), (4, some 150), (5, some 150),
       (6, some 150), (7, some 150), (8, some 150), (9, some 150), (10, some 150),
       (11, some 150), (12, some 150)] ∧
    seasonalPeakList exC3 = [1, 2, 3] := by
  have hM : monthMeans exC3 =
      [(1, some 150), (2, some 150), (3, some 150), (4, some 150), (5, some 150),
       (6, some 150), (7, some 150), (8, some 150), (9, some 150), (10, some 150),
       (11, some 150), (12, some 150)] := by
    simp [exC3, monthMeans, keysAsc, dedupAdj, rowTotal, meanOptF, meanOpt,
      List.insertionSort, List.orderedInsert]
  exact ⟨hM, (c3_seasonal_peaks exC3).2.2.2.2 150 hM⟩

theorem neg_one_le_score (o : Option ℚ) : -1 ≤ score o := by
  cases o with
  | none => exact le_refl _
  | some q => exact le_trans (by norm_num : (-1 : ℚ) ≤ 0) (abs_nonneg q)

/-- Claim C4 as stated is false: when every coefficient is undefined the max
call still returns the first listed variable name instead of signalling that no
strongest factor exists. exC4 has no weather columns, all three safe_corr
results are NaN, and the strongest factor is reported as Temperature anyway. -/
theorem c4_counterexample :
    safe_corr exC4 "temp_c" "total_cases" = none ∧
    safe_corr exC4 "rain_c" "total_cases" = none ∧
    safe_corr exC4 "rh_c" "total_cases" = none ∧
    strongest (safe_corr exC4 "temp_c" "total_cases") (safe_corr exC4 "rain_c" "total_cases")
      (safe_corr exC4 "rh_c" "total_cases") = "Temperature" :=
  ⟨by decide, by decide, by decide, by decide⟩

/-- Claim C4 amended: the strongest factor is the first variable (in the order
Temperature, Rainfall, Humidity) whose score — absolute coefficient, with NaN
scored -1 — is maximal; an absent variable has an undefined coefficient and,
scoring -1, can never beat a defined one; whenever some coefficient is defined
the winner is defined, but when all are undefined the code returns
"Temperature" rather than signalling the absence of a strongest factor. -/
theorem c4_strongest (ct cr ch : Option ℚ) :
    (strongestTriple ct cr ch = ("Temperature", ct) ∨
      (strongestTriple ct cr ch = ("Rainfall", cr) ∧ score ct < score cr) ∨
      (strongestTriple ct cr ch = ("Humidity", ch) ∧ score ct < score ch ∧
        score cr < score ch)) ∧
    score (strongestTriple ct cr ch).2 = max (score ct) (max (score cr) (score ch)) ∧
    ((ct ≠ none ∨ cr ≠ none ∨ ch ≠ none) → (strongestTriple ct cr ch).2 ≠ none) ∧
    (∀ (A : MonTable) (x yc : String), x ∉ A.cols → safe_corr A x yc = none) ∧
    (∀ q : ℚ, score none < score (some q)) := by
  have hsafe : ∀ (A : MonTable) (x yc : String), x ∉ A.cols → safe_corr A x yc = none := by
    intro A x yc hx
    rw [safe_corr, if_neg]
    intro hcon
    exact hx hcon.1
  have hscore : ∀ q : ℚ, score none < score (some q) := fun q =>
    lt_of_lt_of_le (by norm_num : (-1 : ℚ) < 0) (abs_nonneg q)
  have hval : strongestTriple ct cr ch =
      if score ct < score cr then
        (if score cr < score ch then ("Humidity", ch) else ("Rainfall", cr))
      else (if score ct < score ch then ("Humidity", ch) else ("Temperature", ct)) := by
    simp only [strongestTriple, maxByFirst]
  rw [hval]
  split_ifs with h1 h2 h3
  · refine ⟨Or.inr (Or.inr ⟨rfl, lt_trans h1 h2, h2⟩), ?_, ?_, hsafe, hscore⟩
    · show score ch = _
      rw [max_eq_right (le_of_lt h2), max_eq_right (le_of_lt (lt_trans h1 h2))]
    · intro _ hcon
      rw [show ((("Humidity", ch) : String × Option ℚ).2) = ch from rfl] at hcon
      subst hcon
      exact absurd (lt_of_le_of_lt (neg_one_le_score cr) h2) (lt_irrefl (score none))
  · refine ⟨Or.inr (Or.inl ⟨rfl, h1⟩), ?_, ?_, hsafe, hscore⟩
    · show score cr = _
      rw [max_eq_left (not_lt.mp h2), max_eq_right (le_of_lt h1)]
    · intro _ hcon
      rw [show ((("Rainfall", cr) : String × Option ℚ).2) = cr from rfl] at hcon
      subst hcon
      exact absurd (lt_of_le_of_lt (neg_one_le_score ct) h1) (lt_irrefl (score none))
  · refine ⟨Or.inr (Or.inr ⟨rfl, h3, lt_of_le_of_lt (not_lt.mp h1) h3⟩), ?_, ?_, hsafe, hscore⟩
    · show score ch = _
      rw [max_eq_right (lt_of_le_of_lt (not_lt.mp h1) h3).le, max_eq_right (le_of_lt h3)]
    · intro _ hcon
      rw [show ((("Humidity", ch) : String × Option ℚ).2) = ch from rfl] at hcon
      subst hcon
      exact absurd (lt_of_le_of_lt (neg_one_le_score ct) h3) (lt_irrefl (score none))
  · refine ⟨Or.inl rfl, ?_, ?_, hsafe, hscore⟩
    · show score ct = _
      rw [max_eq_left (max_le (not_lt.mp h1) (not_lt.mp h3))]
    · intro hdef hcon
      rw [show ((("Temperature", ct) : String × Option ℚ).2) = ct from rfl] at hcon
      subst hcon
      have hcr : cr = none := by
        cases hcr : cr with
        | none => rfl
        | some q =>
          rw [hcr] at h1
          exact absurd (hscore q) h1
      have hch : ch = none := by
        cases hch : ch with
        | none => rfl
        | some q =>
          rw [hch] at h3
          exact absurd (hscore q) h3
      rcases hdef with hd | hd | hd
      · exact hd rfl
      · exact hd hcr
      · exact hd hch

/-- Witness for the amended claim C4 at concrete defined coefficients (and at the
weatherless monthly table for the exclusion clause). -/
theorem c4_witness :
    ((some (1 / 2 : ℚ) : Option ℚ) ≠ none ∨ (some (-3 / 4 : ℚ) : Option ℚ) ≠ none ∨
      (none : Option ℚ) ≠ none) ∧
    (strongestTriple (some (1 / 2)) (some (-3 / 4)) none).2 ≠ none ∧
    safe_corr exC4 "rain_c" "total_cases" = none :=
  ⟨Or.inl (by decide),
   (c4_strongest (some (1 / 2)) (some (-3 / 4)) none).2.2.1 (Or.inl (by decide)),
   (c4_strongest (some (1 / 2)) (some (-3 / 4)) none).2.2.2.1 exC4 "rain_c" "total_cases"
     (by decide)⟩

end HFMD
